import Mathlib

/-!
Verification of the RAGPipeline repository: a shallow embedding of
`vector_store.py`, `web_scraper.py` and `main.py`, together with proofs of
the specified properties of ingestion, fragment identity, retrieval and
source-scoped deletion.

Third-party capabilities that the code calls (ChromaDB collection
operations, the langchain text splitter, the urllib scheme parser, the
embedding model) are not part of the repository; where a claim depends on
them they are modelled from the spec, as indicated on each definition.
-/

namespace RAG

/-! ### Metadata records (Python dicts with string keys) -/

/-- A metadata value: the repository stores strings (url, title, ...) and
integers (chunk_index, total_chunks) in its metadata dicts. -/
inductive MVal where
  | str (s : String)
  | nat (n : Nat)
deriving DecidableEq, Repr

/-- A Python dict with string keys, as an insertion-ordered association list. -/
abbrev Dict := List (String × MVal)

/-- `d.get(k)`: first binding of key `k`, if any. -/
def dictGet (d : Dict) (k : String) : Option MVal :=
  (d.find? (fun p => p.1 == k)).map (fun p => p.2)

/-- `{**d, k: v}` for a single key: overwrite in place if the key exists
(keeping insertion order), otherwise append the new binding. -/
def dictSet (d : Dict) (k : String) (v : MVal) : Dict :=
  if d.any (fun p => p.1 == k) then d.map (fun p => if p.1 == k then (k, v) else p)
  else d ++ [(k, v)]

/-- Python `str()` of a metadata value, as used by f-string interpolation. -/
def mvalStr : MVal → String
  | .str s => s
  | .nat n => toString n

/-! ### MD5 (`hashlib.md5`), over byte lists represented as `Nat` -/

/-- 2^32, the modulus for 32-bit words. -/
def M32 : Nat := 4294967296

/-- Rotate a 32-bit word left by `s` bits. -/
def rotl (x s : Nat) : Nat :=
  ((x <<< s) % M32) ||| (x >>> (32 - s))

/-- The 64 MD5 round constants, floor(abs(sin(i+1)) * 2^32). -/
def md5K : List Nat :=
  [0xd76aa478, 0xe8c7b756, 0x242070db, 0xc1bdceee,
   0xf57c0faf, 0x4787c62a, 0xa8304613, 0xfd469501,
   0x698098d8, 0x8b44f7af, 0xffff5bb1, 0x895cd7be,
   0x6b901122, 0xfd987193, 0xa679438e, 0x49b40821,
   0xf61e2562, 0xc040b340, 0x265e5a51, 0xe9b6c7aa,
   0xd62f105d, 0x02441453, 0xd8a1e681, 0xe7d3fbc8,
   0x21e1cde6, 0xc33707d6, 0xf4d50d87, 0x455a14ed,
   0xa9e3e905, 0xfcefa3f8, 0x676f02d9, 0x8d2a4c8a,
   0xfffa3942, 0x8771f681, 0x6d9d6122, 0xfde5380c,
   0xa4beea44, 0x4bdecfa9, 0xf6bb4b60, 0xbebfbc70,
   0x289b7ec6, 0xeaa127fa, 0xd4ef3085, 0x04881d05,
   0xd9d4d039, 0xe6db99e5, 0x1fa27cf8, 0xc4ac5665,
   0xf4292244, 0x432aff97, 0xab9423a7, 0xfc93a039,
   0x655b59c3, 0x8f0ccc92, 0xffeff47d, 0x85845dd1,
   0x6fa87e4f, 0xfe2ce6e0, 0xa3014314, 0x4e0811a1,
   0xf7537e82, 0xbd3af235, 0x2ad7d2bb, 0xeb86d391]

/-- The 64 MD5 per-round left-rotation amounts. -/
def md5S : List Nat :=
  [7, 12, 17, 22, 7, 12, 17, 22, 7, 12, 17, 22, 7, 12, 17, 22,
   5, 9, 14, 20, 5, 9, 14, 20, 5, 9, 14, 20, 5, 9, 14, 20,
   4, 11, 16, 23, 4, 11, 16, 23, 4, 11, 16, 23, 4, 11, 16, 23,
   6, 10, 15, 21, 6, 10, 15, 21, 6, 10, 15, 21, 6, 10, 15, 21]

/-- The MD5 round's nonlinear function, by round index. -/
def md5F (i b c d : Nat) : Nat :=
  if i < 16 then (b &&& c) ||| ((b ^^^ 0xffffffff) &&& d)
  else if i < 32 then (d &&& b) ||| ((d ^^^ 0xffffffff) &&& c)
  else if i < 48 then b ^^^ c ^^^ d
  else c ^^^ (b ||| (d ^^^ 0xffffffff))

/-- The MD5 message-word index for round `i`. -/
def md5G (i : Nat) : Nat :=
  if i < 16 then i
  else if i < 32 then (5 * i + 1) % 16
  else if i < 48 then (3 * i + 5) % 16
  else (7 * i) % 16

/-- One MD5 round on state `(a, b, c, d)` with message words `m`. -/
def md5Step (m : List Nat) (st : Nat × Nat × Nat × Nat) (i : Nat) :
    Nat × Nat × Nat × Nat :=
  let f := (md5F i st.2.1 st.2.2.1 st.2.2.2 + st.1 + md5K.getD i 0
            + m.getD (md5G i) 0) % M32
  (st.2.2.2, (st.2.1 + rotl f (md5S.getD i 0)) % M32, st.2.1, st.2.2.1)

/-- Process one 16-word block, adding the round output into the chaining state. -/
def md5Block (st : Nat × Nat × Nat × Nat) (m : List Nat) : Nat × Nat × Nat × Nat :=
  let r := (List.range 64).foldl (md5Step m) st
  ((st.1 + r.1) % M32, (st.2.1 + r.2.1) % M32,
   (st.2.2.1 + r.2.2.1) % M32, (st.2.2.2 + r.2.2.2) % M32)

/-- Read the `j`-th little-endian 32-bit word of a 64-byte block. -/
def leWord (b : List Nat) (j : Nat) : Nat :=
  b.getD (4 * j) 0 + 256 * b.getD (4 * j + 1) 0
    + 65536 * b.getD (4 * j + 2) 0 + 16777216 * b.getD (4 * j + 3) 0

/-- The 16 little-endian words of a 64-byte block. -/
def md5Words (block : List Nat) : List Nat :=
  (List.range 16).map (leWord block)

/-- Split a padded message into 64-byte blocks; structural recursion on a
fuel bound so that the kernel can evaluate it (each step consumes 64 bytes,
so `bs.length` steps always suffice). -/
def toBlocksF : Nat → List Nat → List (List Nat)
  | 0, _ => []
  | fuel + 1, bs =>
    if bs.length = 0 then []
    else bs.take 64 :: toBlocksF fuel (bs.drop 64)

/-- Split a padded message into 64-byte blocks. -/
def toBlocks (bs : List Nat) : List (List Nat) :=
  toBlocksF bs.length bs

/-- Eight little-endian bytes of a 64-bit value. -/
def le8 (n : Nat) : List Nat :=
  [n % 256, n / 256 % 256, n / 65536 % 256, n / 16777216 % 256,
   n / 4294967296 % 256, n / 1099511627776 % 256,
   n / 281474976710656 % 256, n / 72057594037927936 % 256]

/-- MD5 padding: a 1-bit, zeros to 56 mod 64 bytes, then the bit length. -/
def md5Pad (msg : List Nat) : List Nat :=
  msg ++ [128] ++ List.replicate ((119 - msg.length % 64) % 64) 0
      ++ le8 ((8 * msg.length) % 18446744073709551616)

/-- Four little-endian bytes of a 32-bit word. -/
def le4 (w : Nat) : List Nat :=
  [w % 256, w / 256 % 256, w / 65536 % 256, w / 16777216 % 256]

/-- The MD5 chaining state after absorbing all blocks of the padded message. -/
def md5Core (msg : List Nat) : Nat × Nat × Nat × Nat :=
  (toBlocks (md5Pad msg)).foldl (fun st blk => md5Block st (md5Words blk))
    (0x67452301, 0xefcdab89, 0x98badcfe, 0x10325476)

/-- The 16-byte MD5 digest of a byte list. -/
def md5Bytes (msg : List Nat) : List Nat :=
  le4 (md5Core msg).1 ++ le4 (md5Core msg).2.1
    ++ le4 (md5Core msg).2.2.1 ++ le4 (md5Core msg).2.2.2

/-- The lowercase hex digit for `n % 16`. -/
def hexDigit (n : Nat) : Char :=
  "0123456789abcdef".data.getD (n % 16) '0'

/-- Two lowercase hex digits of a byte. -/
def byteHex (b : Nat) : List Char :=
  [hexDigit (b / 16), hexDigit b]

/-- The character list of `hexdigest()`. -/
def md5HexList (msg : List Nat) : List Char :=
  (md5Bytes msg).flatMap byteHex

/-- `hashlib.md5(msg).hexdigest()`. -/
def md5Hex (msg : List Nat) : String :=
  String.mk (md5HexList msg)

/-- UTF-8 encoding of one code point. -/
def utf8Char (n : Nat) : List Nat :=
  if n < 128 then [n]
  else if n < 2048 then [192 + n / 64, 128 + n % 64]
  else if n < 65536 then [224 + n / 4096, 128 + n / 64 % 64, 128 + n % 64]
  else [240 + n / 262144, 128 + n / 4096 % 64, 128 + n / 64 % 64, 128 + n % 64]

/-- `str.encode()`: the UTF-8 bytes of a string. -/
def utf8 (s : String) : List Nat :=
  s.data.flatMap (fun c => utf8Char c.toNat)

/-- Python's `s[:n]` on a string: the first `n` characters. -/
def strTake (n : Nat) (s : String) : String :=
  String.mk (s.data.take n)

/-- `VectorStore._generate_id(text, url)`:
`hashlib.md5(f"{url}:{text[:100]}".encode()).hexdigest()`. -/
def generate_id (text url : String) : String :=
  md5Hex (utf8 (url ++ ":" ++ strTake 100 text))

/-! ### The text splitter

The chunker itself lives in the `langchain_text_splitters` library, outside
this repository; `VectorStore.__init__` only configures it (chunk size 1000,
overlap 200, separators two newlines / newline / period-space / space /
character boundary). It is modelled here from the spec. -/

/-- Python whitespace, as removed by `str.strip()`. -/
def isWS (c : Char) : Bool :=
  c == ' ' || c == '\t' || c == '\n' || c == '\r'
    || c == Char.ofNat 11 || c == Char.ofNat 12

/-- The configured maximum chunk length (`chunk_size=1000`). -/
def CHUNK_SIZE : Nat := 1000

/-- The configured separator hierarchy, coarsest first; the final empty
separator (character boundary) is the hard-cut fallback `hardCut`. -/
def SEPS : List (List Char) :=
  [['\n', '\n'], ['\n'], ['.', ' '], [' ']]

/-- The last-resort character-boundary split, structural on a fuel bound so
that the kernel can evaluate it (each step consumes `CHUNK_SIZE` characters,
so `cs.length + 1` steps always suffice). -/
def hardCutF : Nat → List Char → List (List Char)
  | 0, _ => []
  | fuel + 1, cs =>
    if cs.length ≤ CHUNK_SIZE then [cs]
    else cs.take CHUNK_SIZE :: hardCutF fuel (cs.drop CHUNK_SIZE)

/-- Modelled from the spec: the last-resort character-boundary split — hard
cuts into pieces of at most `CHUNK_SIZE` characters. -/
def hardCut (cs : List Char) : List (List Char) :=
  hardCutF (cs.length + 1) cs

/-- Split on one separator, accumulator-style; separator occurrences are
consumed and a piece boundary is emitted at each occurrence of `sep`.
Structural on a fuel bound (each step consumes at least one character, so
`cs.length` steps always suffice); the out-of-fuel fallback emits the
remainder as one piece. -/
def splitOnSepAux (sep : List Char) : Nat → List Char → List Char → List (List Char)
  | _, [], acc => [acc.reverse]
  | 0, cs, acc => [acc.reverse ++ cs]
  | fuel + 1, c :: rest, acc =>
    if !sep.isEmpty && sep.isPrefixOf (c :: rest) then
      acc.reverse :: splitOnSepAux sep fuel (List.drop (sep.length - 1) rest) []
    else splitOnSepAux sep fuel rest (c :: acc)

/-- Split a character list on every occurrence of `sep`. -/
def splitOnSep (sep : List Char) (cs : List Char) : List (List Char) :=
  splitOnSepAux sep cs.length cs []

/-- Modelled from the spec: recursively attempt to split on a prioritized
list of separators, keeping any piece already within the size bound and
re-splitting oversized pieces with the finer separators, falling back to
hard character cuts when no separator remains. -/
def chunkRec : List (List Char) → List Char → List (List Char)
  | [], cs =>
    if cs.length ≤ CHUNK_SIZE then [cs] else hardCut cs
  | sep :: rest, cs =>
    if cs.length ≤ CHUNK_SIZE then [cs]
    else
      (splitOnSep sep cs).flatMap (fun p =>
        if p.length ≤ CHUNK_SIZE then [p] else chunkRec rest p)

/-- `str.strip()` on a chunk: drop whitespace from both ends. -/
def stripChunk (cs : List Char) : List Char :=
  ((cs.dropWhile isWS).reverse.dropWhile isWS).reverse

/-- Modelled from the spec: the configured splitter on character lists —
chunks are stripped, and empty or whitespace-only chunks are dropped, so
empty or whitespace-only input yields the empty sequence. -/
def split_chars (cs : List Char) : List (List Char) :=
  ((chunkRec SEPS cs).map stripChunk).filter (fun p => !p.isEmpty)

/-- `self.text_splitter.split_text(content)` (modelled from the spec). -/
def split_text (s : String) : List String :=
  (split_chars s.data).map String.mk

/-! ### The index store (ChromaDB collection, modelled from the spec) -/

/-- One stored fragment: `id -> (vector, text, metadata)`. -/
structure Frag where
  id : String
  embedding : List Int
  document : String
  metadata : Dict
deriving DecidableEq, Repr

/-- The collection's live entries. -/
abbrev Store := List Frag

/-- Whether some entry carries the given id. -/
def hasId (s : Store) (k : String) : Bool :=
  s.any (fun e => e.id == k)

/-- Modelled from the spec: single-entry upsert — overwrites existing
entries sharing the id, otherwise appends. -/
def upsert1 (e : Frag) (s : Store) : Store :=
  if hasId s e.id then s.map (fun x => if x.id == e.id then e else x)
  else s ++ [e]

/-- Modelled from the spec: `collection.add(ids, embeddings, metadatas,
documents)` as a batch write, aligned by position. -/
def collectionAdd (es : List Frag) (s : Store) : Store :=
  es.foldl (fun acc e => upsert1 e acc) s

/-- `collection.count()`: total live entries. -/
def count (s : Store) : Nat := s.length

/-- Lookup of the entry stored under an id. -/
def findById (s : Store) (k : String) : Option Frag :=
  s.find? (fun e => e.id == k)

/-! ### `VectorStore.add_document` -/

/-- The id derived for the chunk at position `i` of source `url`:
`_generate_id(chunk, f"{url}_{i}")`. -/
def deriveId (url : String) (i : Nat) (chunk : String) : String :=
  generate_id chunk (url ++ "_" ++ toString i)

/-- Outcome of one `add_document` call: the store afterwards, the returned
chunk count, and how many times the embedder was invoked. -/
structure AddResult where
  store : Store
  returned : Nat
  embedCalls : Nat
deriving Repr

/-- The batch of fragments `add_document` prepares for the store: per chunk,
the derived id, the embedding, the text, and the document metadata extended
with `chunk_index` and `total_chunks`. -/
def prepareFrags (embed : String → List Int) (chunks : List String)
    (metadata : Dict) : List Frag :=
  chunks.enum.map (fun p =>
    { id := deriveId (mvalStr ((dictGet metadata "url").getD (.str "unknown"))) p.1 p.2
      embedding := embed p.2
      document := p.2
      metadata := dictSet (dictSet metadata "chunk_index" (.nat p.1))
        "total_chunks" (.nat chunks.length) })

/-- `VectorStore.add_document(content, metadata)`; `embed` stands for the
sentence-transformer capability. -/
def add_document (embed : String → List Int) (s : Store) (content : String)
    (metadata : Dict) : AddResult :=
  let chunks := split_text content
  if chunks.isEmpty then { store := s, returned := 0, embedCalls := 0 }
  else
    { store := collectionAdd (prepareFrags embed chunks metadata) s
      returned := chunks.length
      embedCalls := 1 }

/-! ### `VectorStore.search` -/

/-- One formatted search hit. -/
structure SearchResult where
  content : String
  metadata : Dict
  distance : Option Int
deriving DecidableEq, Repr

/-- The raw reply of `collection.query`: each field is absent (`none`,
Python falsy) or the per-hit list for the single query vector. -/
structure QueryReply where
  documents : Option (List String)
  metadatas : Option (List Dict)
  distances : Option (List Int)

/-- Modelled from the spec: `collection.query(query_embeddings, n_results,
include=[documents, metadatas, distances])` — ranks all entries by the
collection's metric (`dist`, ascending, nearest first) and returns up to
`topK` of them, fields aligned by position. -/
def storeQuery (dist : List Int → List Int → Int) (qv : List Int)
    (topK : Nat) (s : Store) : QueryReply :=
  let ranked := (s.map (fun e => (e, dist qv e.embedding))).mergeSort
    (fun a b => decide (a.2 ≤ b.2))
  let top := ranked.take topK
  { documents := some (top.map (fun p => p.1.document))
    metadatas := some (top.map (fun p => p.1.metadata))
    distances := some (top.map (fun p => p.2)) }

/-- The result-formatting loop of `VectorStore.search`: nothing (or an empty
document list) maps to `[]`; otherwise one record per hit, with a falsy
metadatas field mapped to an empty record and a falsy distances field mapped
to `None`. -/
def formatResults (r : QueryReply) : List SearchResult :=
  match r.documents with
  | none => []
  | some docs =>
    if docs.isEmpty then []
    else
      docs.enum.map (fun p =>
        { content := p.2
          metadata := match r.metadatas with
            | some ms => ms.getD p.1 []
            | none => []
          distance := match r.distances with
            | some ds => ds[p.1]?
            | none => none })

/-- `VectorStore.search(query, n_results)`; `embed` is the sentence
transformer and `dist` the collection's configured metric. -/
def search (embed : String → List Int) (dist : List Int → List Int → Int)
    (query : String) (n_results : Nat) (s : Store) : List SearchResult :=
  formatResults (storeQuery dist (embed query) n_results s)

/-! ### `VectorStore.delete_by_url` -/

/-- Modelled from the spec: `collection.get(where={key: value})` — the ids
of the entries whose metadata maps `key` to exactly `value`. -/
def getWhere (s : Store) (key : String) (v : MVal) : List String :=
  (s.filter (fun e => dictGet e.metadata key == some v)).map (fun e => e.id)

/-- Modelled from the spec: `collection.delete(ids=...)` — removes the
entries carrying the given ids; absent ids are a no-op. -/
def collDelete (s : Store) (ids : List String) : Store :=
  s.filter (fun e => !(ids.contains e.id))

/-- `VectorStore.delete_by_url(url)`: fetch by the `url` metadata field,
retry with the `source` field if that yields nothing, delete the matched
ids and return how many. -/
def delete_by_url (s : Store) (url : String) : Store × Nat :=
  let results := getWhere s "url" (.str url)
  let results := if results.isEmpty then getWhere s "source" (.str url) else results
  if results.isEmpty then (s, 0) else (collDelete s results, results.length)

/-! ### `WebScraper` and the `/process` route -/

/-- The scheme of a URL, modelled from `urllib.parse.urlparse`: the text
before the first colon, or the empty string when there is no colon. -/
def urlScheme (u : String) : String :=
  if u.data.contains ':' then String.mk (u.data.takeWhile (fun c => !(c == ':')))
  else ""

/-- `WebScraper.fetch_url(url)`: reject any scheme other than http/https,
otherwise return the network outcome (`response`: `some` body on success,
`none` for a `requests` error — both error paths return `None`). -/
def fetch_url (url : String) (response : Option String) : Option String :=
  if urlScheme url == "http" || urlScheme url == "https" then response
  else none

/-- The record `extract_metadata` builds for a page. -/
structure ScrapeMeta where
  url : String
  title : String
  description : String
  domain : String
deriving Repr

/-- The dictionary `scrape` returns on success. -/
structure ScrapeResult where
  content : String
  metadata : ScrapeMeta
deriving Repr

/-- `WebScraper.scrape(url)`: `None` when `fetch_url` fails, otherwise the
extracted text and metadata; `extract`, `titleOf`, `descOf`, `domainOf`
stand for the bs4/html2text/urlparse parsing capabilities. -/
def scrape (extract : String → String) (titleOf descOf : String → String)
    (domainOf : String → String) (url : String) (response : Option String) :
    Option ScrapeResult :=
  match fetch_url url response with
  | none => none
  | some html =>
    some { content := extract html
           metadata := { url := url, title := titleOf html
                         description := descOf html, domain := domainOf url } }

/-- The `/process` route of `main.py`: scrape, then `add_document` with
`{url: source_url, title: result[metadata][title]}`. Subscripting the
`None` returned by a failed scrape raises a `TypeError`, modelled as an
`Except.error` produced before any store interaction. -/
def process (embed : String → List Int) (scraped : Option ScrapeResult)
    (source_url : String) (store : Store) : Store × Except String Nat :=
  match scraped with
  | none => (store, Except.error "TypeError: NoneType object is not subscriptable")
  | some result =>
    let metadata : Dict := [("url", .str source_url), ("title", .str result.metadata.title)]
    let r := add_document embed store result.content metadata
    (r.store, Except.ok r.returned)

/-! ## Supporting lemmas -/

/-- The MD5 digest always has exactly 16 bytes. -/
theorem md5Bytes_length (msg : List Nat) : (md5Bytes msg).length = 16 := by
  simp [md5Bytes, le4]

/-- Rendering bytes in hex doubles the length. -/
theorem flatMap_byteHex_length (bs : List Nat) :
    (bs.flatMap byteHex).length = 2 * bs.length := by
  induction bs with
  | nil => rfl
  | cons b bs ih => simp [byteHex] at ih ⊢; omega

/-- The hex rendering of a digest has 32 characters. -/
theorem md5HexList_length (msg : List Nat) : (md5HexList msg).length = 32 := by
  rw [md5HexList, flatMap_byteHex_length, md5Bytes_length]

/-- Every emitted digit is one of the sixteen lowercase hex characters. -/
theorem hexDigit_mem (n : Nat) : hexDigit n ∈ "0123456789abcdef".data := by
  have hlt : n % 16 < "0123456789abcdef".data.length := by
    have := Nat.mod_lt n (y := 16) (by omega)
    simpa using this
  rw [hexDigit, List.getD_eq_getElem?_getD, List.getElem?_eq_getElem hlt]
  exact List.getElem_mem hlt

/-- Every character of the hex digest is a hex digit. -/
theorem md5HexList_mem (msg : List Nat) (c : Char) (hc : c ∈ md5HexList msg) :
    c ∈ "0123456789abcdef".data := by
  rw [md5HexList, List.mem_flatMap] at hc
  obtain ⟨b, _, hb⟩ := hc
  simp only [byteHex, List.mem_cons, List.not_mem_nil, or_false] at hb
  rcases hb with h | h <;> exact h ▸ hexDigit_mem _

/-- C3 — Fragment id derivation: `deriveId` is a pure function of the
source identifier, the position, and only the first 100 characters of the
chunk text (chunks agreeing on that prefix receive the same id at the same
source and position), and the id is always a 32-character string of
lowercase hex digits. -/
theorem deriveId_prefix_and_hex (src : String) (i : Nat) (c1 c2 c : String)
    (hpre : strTake 100 c1 = strTake 100 c2) :
    deriveId src i c1 = deriveId src i c2 ∧
    (deriveId src i c).length = 32 ∧
    ∀ ch ∈ (deriveId src i c).data, ch ∈ "0123456789abcdef".data := by
  refine ⟨?_, ?_, ?_⟩
  · unfold deriveId generate_id
    rw [hpre]
  · unfold deriveId generate_id md5Hex
    rw [String.length_mk, md5HexList_length]
  · intro ch hch
    unfold deriveId generate_id md5Hex at hch
    exact md5HexList_mem _ _ hch

/-- Witness for C3 at concrete inputs: two 101-character chunks differing
only in their last character collide, and the digest is 32 hex characters. -/
theorem deriveId_prefix_and_hex_witness :
    strTake 100 (String.mk (List.replicate 100 'a' ++ ['X']))
        = strTake 100 (String.mk (List.replicate 100 'a' ++ ['Y'])) ∧
    deriveId "doc" 0 (String.mk (List.replicate 100 'a' ++ ['X']))
        = deriveId "doc" 0 (String.mk (List.replicate 100 'a' ++ ['Y'])) ∧
    (deriveId "doc" 0 (String.mk (List.replicate 100 'a' ++ ['X']))).length = 32 := by
  have hpre : strTake 100 (String.mk (List.replicate 100 'a' ++ ['X']))
      = strTake 100 (String.mk (List.replicate 100 'a' ++ ['Y'])) := by decide
  have h := deriveId_prefix_and_hex "doc" 0
    (String.mk (List.replicate 100 'a' ++ ['X']))
    (String.mk (List.replicate 100 'a' ++ ['Y']))
    (String.mk (List.replicate 100 'a' ++ ['X'])) hpre
  exact ⟨hpre, h.1, h.2.1⟩

/-- Every piece of a hard character cut is within the bound, whatever the
fuel. -/
theorem hardCutF_bound (fuel : Nat) (cs p : List Char)
    (hp : p ∈ hardCutF fuel cs) : p.length ≤ CHUNK_SIZE := by
  induction fuel generalizing cs with
  | zero => simp [hardCutF] at hp
  | succ fuel ih =>
    rw [hardCutF] at hp
    split at hp
    · simp only [List.mem_singleton] at hp
      subst hp
      assumption
    · rcases List.mem_cons.mp hp with h | h
      · subst h
        simp [CHUNK_SIZE]
      · exact ih _ h

/-- Every piece of a hard character cut is within the bound. -/
theorem hardCut_bound (cs p : List Char) (hp : p ∈ hardCut cs) :
    p.length ≤ CHUNK_SIZE :=
  hardCutF_bound _ cs p hp

/-- Every chunk produced by the recursive separator splitter is within the
bound: oversized pieces are always re-split by a finer separator or, when
none remains, hard-cut at the character boundary. -/
theorem chunkRec_bound (seps : List (List Char)) (cs p : List Char)
    (hp : p ∈ chunkRec seps cs) : p.length ≤ CHUNK_SIZE := by
  induction seps generalizing cs with
  | nil =>
    rw [chunkRec] at hp
    split at hp
    · simp only [List.mem_singleton] at hp
      subst hp
      assumption
    · exact hardCut_bound cs p hp
  | cons sep rest ih =>
    rw [chunkRec] at hp
    split at hp
    · simp only [List.mem_singleton] at hp
      subst hp
      assumption
    · rw [List.mem_flatMap] at hp
      obtain ⟨q, _, hq⟩ := hp
      split at hq
      · simp only [List.mem_singleton] at hq
        subst hq
        assumption
      · exact ih q hq

/-- Stripping whitespace never lengthens a chunk. -/
theorem stripChunk_length_le (cs : List Char) :
    (stripChunk cs).length ≤ cs.length := by
  unfold stripChunk
  calc ((cs.dropWhile isWS).reverse.dropWhile isWS).reverse.length
      = ((cs.dropWhile isWS).reverse.dropWhile isWS).length := List.length_reverse _
    _ ≤ (cs.dropWhile isWS).reverse.length :=
        (List.dropWhile_sublist _).length_le
    _ = (cs.dropWhile isWS).length := List.length_reverse _
    _ ≤ cs.length := (List.dropWhile_sublist _).length_le

/-- C9 — Chunk bound: every chunk produced by the configured splitter has
length at most the configured maximum of 1000 characters. Because the
configured separator hierarchy ends in the character boundary, no
"unsplittable token" can exceed the bound, so the exception in the claim is
vacuous; the recursive fallback terminates on every input, including
unbroken text longer than the maximum, as all splitting functions here are
total. -/
theorem split_text_chunk_bound (t c : String) (hc : c ∈ split_text t) :
    c.length ≤ 1000 := by
  unfold split_text split_chars at hc
  rw [List.mem_map] at hc
  obtain ⟨p, hp, rfl⟩ := hc
  rw [List.mem_filter, List.mem_map] at hp
  obtain ⟨⟨q, hq, rfl⟩, -⟩ := hp
  rw [String.length_mk]
  calc (stripChunk q).length ≤ q.length := stripChunk_length_le q
    _ ≤ CHUNK_SIZE := chunkRec_bound SEPS t.data q hq
    _ ≤ 1000 := le_rfl

set_option maxRecDepth 100000 in
/-- Witness for C9: a concrete chunk of a pathological unbroken 1500
character input (which the splitter terminates on and hard-cuts) is within
the bound. -/
theorem split_text_chunk_bound_witness :
    String.mk (List.replicate 1000 'a')
        ∈ split_text (String.mk (List.replicate 1500 'a')) ∧
    (String.mk (List.replicate 1000 'a')).length ≤ 1000 := by
  have hmem : String.mk (List.replicate 1000 'a')
      ∈ split_text (String.mk (List.replicate 1500 'a')) := by decide
  exact ⟨hmem, split_text_chunk_bound _ _ hmem⟩

/-- Characters of any piece of a one-separator split come from the input or
the accumulator. -/
theorem splitOnSepAux_subset (sep : List Char) (fuel : Nat) (cs acc p : List Char)
    (hp : p ∈ splitOnSepAux sep fuel cs acc) :
    ∀ x ∈ p, x ∈ cs ∨ x ∈ acc := by
  induction fuel generalizing cs acc with
  | zero =>
    match cs, hp with
    | [], hp =>
      simp only [splitOnSepAux, List.mem_singleton] at hp
      subst hp
      intro x hx
      right
      exact List.mem_reverse.mp hx
    | c :: rest, hp =>
      simp only [splitOnSepAux, List.mem_singleton] at hp
      subst hp
      intro x hx
      rcases List.mem_append.mp hx with h | h
      · right; exact List.mem_reverse.mp h
      · left; exact h
  | succ fuel ih =>
    match cs, hp with
    | [], hp =>
      simp only [splitOnSepAux, List.mem_singleton] at hp
      subst hp
      intro x hx
      right
      exact List.mem_reverse.mp hx
    | c :: rest, hp =>
      rw [splitOnSepAux] at hp
      split at hp
      · rcases List.mem_cons.mp hp with h | h
        · subst h
          intro x hx
          right
          exact List.mem_reverse.mp hx
        · intro x hx
          rcases ih _ _ h x hx with h' | h'
          · exact Or.inl (List.mem_cons_of_mem c (List.drop_subset _ _ h'))
          · exact absurd h' (List.not_mem_nil x)
      · intro x hx
        rcases ih _ _ hp x hx with h' | h'
        · exact Or.inl (List.mem_cons_of_mem c h')
        · rcases List.mem_cons.mp h' with h'' | h''
          · exact Or.inl (h'' ▸ List.mem_cons_self c rest)
          · exact Or.inr h''

/-- Characters of any piece of a one-separator split come from the input. -/
theorem splitOnSep_subset (sep cs p : List Char) (hp : p ∈ splitOnSep sep cs) :
    ∀ x ∈ p, x ∈ cs := by
  intro x hx
  rcases splitOnSepAux_subset sep cs.length cs [] p hp x hx with h | h
  · exact h
  · exact absurd h (List.not_mem_nil x)

/-- Characters of any hard-cut piece come from the input. -/
theorem hardCutF_subset (fuel : Nat) (cs p : List Char)
    (hp : p ∈ hardCutF fuel cs) : ∀ x ∈ p, x ∈ cs := by
  induction fuel generalizing cs with
  | zero => simp [hardCutF] at hp
  | succ fuel ih =>
    rw [hardCutF] at hp
    split at hp
    · simp only [List.mem_singleton] at hp
      subst hp
      exact fun x hx => hx
    · rcases List.mem_cons.mp hp with h | h
      · subst h
        exact fun x hx => List.take_subset _ _ hx
      · exact fun x hx => List.drop_subset _ _ (ih _ h x hx)

/-- Characters of any chunk come from the input text. -/
theorem chunkRec_subset (seps : List (List Char)) (cs p : List Char)
    (hp : p ∈ chunkRec seps cs) : ∀ x ∈ p, x ∈ cs := by
  induction seps generalizing cs with
  | nil =>
    rw [chunkRec] at hp
    split at hp
    · simp only [List.mem_singleton] at hp
      subst hp
      exact fun x hx => hx
    · exact hardCutF_subset _ cs p hp
  | cons sep rest ih =>
    rw [chunkRec] at hp
    split at hp
    · simp only [List.mem_singleton] at hp
      subst hp
      exact fun x hx => hx
    · rw [List.mem_flatMap] at hp
      obtain ⟨q, hq, hpq⟩ := hp
      split at hpq
      · simp only [List.mem_singleton] at hpq
        subst hpq
        exact fun x hx => splitOnSep_subset sep cs p hq x hx
      · exact fun x hx => splitOnSep_subset sep cs q hq x (ih q hpq x hx)

/-- Stripping a whitespace-only chunk leaves nothing. -/
theorem stripChunk_eq_nil (cs : List Char) (h : ∀ x ∈ cs, isWS x) :
    stripChunk cs = [] := by
  unfold stripChunk
  rw [List.dropWhile_eq_nil_iff.mpr h]
  rfl

/-- Modelled edge case of the spec splitter: whitespace-only input yields
the empty chunk sequence. -/
theorem split_chars_eq_nil (cs : List Char) (h : ∀ x ∈ cs, isWS x) :
    split_chars cs = [] := by
  unfold split_chars
  rw [List.filter_eq_nil_iff]
  intro a ha
  rw [List.mem_map] at ha
  obtain ⟨q, hq, rfl⟩ := ha
  have : stripChunk q = [] :=
    stripChunk_eq_nil q (fun x hx => h x (chunkRec_subset SEPS cs q hq x hx))
  simp [this]

/-- C5 — Empty or whitespace-only content: `add_document` returns 0, leaves
the store exactly as it was (count and all fragments unchanged), and never
invokes the embedder or the index. -/
theorem add_document_whitespace (embed : String → List Int) (s : Store)
    (content : String) (metadata : Dict) (h : ∀ c ∈ content.data, isWS c) :
    add_document embed s content metadata
      = { store := s, returned := 0, embedCalls := 0 } := by
  have hsplit : split_text content = [] := by
    unfold split_text
    rw [split_chars_eq_nil content.data h]
    rfl
  simp [add_document, hsplit]

/-- Witness for C5 at concrete whitespace-only content. -/
theorem add_document_whitespace_witness :
    (∀ c ∈ ("  \n\t " : String).data, isWS c) ∧
    add_document (fun _ => [1]) [] "  \n\t " [("url", MVal.str "u")]
      = { store := [], returned := 0, embedCalls := 0 } :=
  ⟨by decide, add_document_whitespace _ _ _ _ (by decide)⟩

/-! Store lemmas for idempotent re-ingestion. -/

/-- After an upsert, the upserted id is present. -/
theorem hasId_upsert1_self (e : Frag) (s : Store) :
    hasId (upsert1 e s) e.id := by
  unfold upsert1
  split
  · next hin =>
    rw [hasId, List.any_eq_true] at hin ⊢
    obtain ⟨x, hx, hxe⟩ := hin
    refine ⟨e, ?_, by simp⟩
    rw [List.mem_map]
    exact ⟨x, hx, by simp [hxe]⟩
  · rw [hasId, List.any_eq_true]
    exact ⟨e, by simp, by simp⟩

/-- Upserting never removes an id from the store. -/
theorem hasId_upsert1_mono (e : Frag) (s : Store) (k : String)
    (h : hasId s k) : hasId (upsert1 e s) k := by
  by_cases hk : k = e.id
  · exact hk ▸ hasId_upsert1_self e s
  · unfold upsert1
    split
    · rw [hasId, List.any_eq_true] at h ⊢
      obtain ⟨x, hx, hxk⟩ := h
      refine ⟨if x.id == e.id then e else x, List.mem_map.mpr ⟨x, hx, rfl⟩, ?_⟩
      have hxid : x.id = k := by simpa using hxk
      have : ¬(x.id == e.id) := by simp [hxid, hk]
      simp [this, hxk]
    · rw [hasId, List.any_eq_true] at h ⊢
      obtain ⟨x, hx, hxk⟩ := h
      exact ⟨x, List.mem_append_left _ hx, hxk⟩

/-- Upserting an id that is already present overwrites in place: the count
is unchanged. -/
theorem count_upsert1_of_hasId (e : Frag) (s : Store) (h : hasId s e.id) :
    count (upsert1 e s) = count s := by
  unfold upsert1
  rw [if_pos h]
  exact List.length_map s _

/-- A batch write never removes an id from the store. -/
theorem hasId_collectionAdd_mono (es : List Frag) (s : Store) (k : String)
    (h : hasId s k) : hasId (collectionAdd es s) k := by
  induction es generalizing s with
  | nil => exact h
  | cons e es ih => exact ih (upsert1 e s) (hasId_upsert1_mono e s k h)

/-- After a batch write, every id of the batch is present. -/
theorem hasId_collectionAdd_of_mem (es : List Frag) (s : Store) (e : Frag)
    (he : e ∈ es) : hasId (collectionAdd es s) e.id := by
  induction es generalizing s with
  | nil => exact absurd he (List.not_mem_nil e)
  | cons a es ih =>
    rcases List.mem_cons.mp he with h | h
    · subst h
      exact hasId_collectionAdd_mono es (upsert1 e s) e.id (hasId_upsert1_self e s)
    · exact ih (upsert1 a s) h

/-- A batch write whose ids are all already present leaves the count
unchanged. -/
theorem count_collectionAdd_of_hasId (es : List Frag) (s : Store)
    (h : ∀ e ∈ es, hasId s e.id) : count (collectionAdd es s) = count s := by
  induction es generalizing s with
  | nil => rfl
  | cons e es ih =>
    have h1 : count (collectionAdd es (upsert1 e s)) = count (upsert1 e s) :=
      ih (upsert1 e s) (fun f hf =>
        hasId_upsert1_mono e s f.id (h f (List.mem_cons_of_mem e hf)))
    calc count (collectionAdd (e :: es) s)
        = count (collectionAdd es (upsert1 e s)) := rfl
      _ = count (upsert1 e s) := h1
      _ = count s := count_upsert1_of_hasId e s (h e (List.mem_cons_self e es))

/-- C1 — Idempotent re-ingestion: calling `add_document` twice with
identical `(content, metadata)` (the source identifier lives in the
metadata) leaves the store count unchanged after the second call — the
second call derives the same fragment ids and overwrites the existing
entries instead of inserting duplicates. -/
theorem add_document_idempotent_count (embed : String → List Int) (s : Store)
    (content : String) (metadata : Dict) :
    count (add_document embed
        (add_document embed s content metadata).store content metadata).store
      = count (add_document embed s content metadata).store := by
  unfold add_document
  by_cases hch : (split_text content).isEmpty
  · simp [hch]
  · simp only [hch, Bool.false_eq_true, if_false]
    exact count_collectionAdd_of_hasId _ _ (fun e he =>
      hasId_collectionAdd_of_mem _ s e he)

/-- The fragment `add_document` prepares at position `i`: the chunk at that
position, under the id derived from the metadata's url (or `"unknown"`),
with the metadata extended by `chunk_index` and `total_chunks`. -/
theorem prepareFrags_getElem? (embed : String → List Int) (chunks : List String)
    (metadata : Dict) (i : Nat) :
    (prepareFrags embed chunks metadata)[i]? = (chunks[i]?).map (fun c =>
      { id := deriveId (mvalStr ((dictGet metadata "url").getD (.str "unknown"))) i c
        embedding := embed c
        document := c
        metadata := dictSet (dictSet metadata "chunk_index" (.nat i))
          "total_chunks" (.nat chunks.length) }) := by
  unfold prepareFrags
  rw [List.getElem?_map, List.getElem?_enum]
  cases chunks[i]? <;> rfl

/-- C4 — For a non-empty chunking result, `add_document` returns exactly the
number of chunks the splitter produced, and the fragment written at position
`i` carries the document metadata extended with `chunk_index = i` and
`total_chunks =` the chunk count. -/
theorem add_document_count_and_metadata (embed : String → List Int) (s : Store)
    (content : String) (metadata : Dict) (hne : split_text content ≠ []) :
    (add_document embed s content metadata).returned = (split_text content).length ∧
    ∀ i f, (prepareFrags embed (split_text content) metadata)[i]? = some f →
      f.metadata = dictSet (dictSet metadata "chunk_index" (.nat i))
        "total_chunks" (.nat (split_text content).length) := by
  constructor
  · have hb : ¬(split_text content).isEmpty := by
      simpa [List.isEmpty_iff] using hne
    simp [add_document, hb]
  · intro i f hf
    rw [prepareFrags_getElem?] at hf
    cases hc : (split_text content)[i]? with
    | none => rw [hc] at hf; exact absurd hf (by simp)
    | some c =>
      rw [hc, Option.map_some'] at hf
      rw [← Option.some.inj hf]

/-- Witness for C4 at concrete single-chunk content. -/
theorem add_document_count_and_metadata_witness :
    (add_document (fun _ => [1]) [] "hello world" [("url", MVal.str "u")]).returned
        = (split_text "hello world").length ∧
    ((prepareFrags (fun _ => [1]) (split_text "hello world")
        [("url", MVal.str "u")])[0]?).map Frag.metadata
      = some [("url", MVal.str "u"), ("chunk_index", MVal.nat 0),
              ("total_chunks", MVal.nat 1)] := by
  have h := add_document_count_and_metadata (fun _ => [1]) [] "hello world"
    [("url", MVal.str "u")] (by decide)
  refine ⟨h.1, ?_⟩
  cases hf : (prepareFrags (fun _ => [1]) (split_text "hello world")
      [("url", MVal.str "u")])[0]? with
  | none =>
    have : (split_text "hello world")[0]? = some "hello world" := by decide
    rw [prepareFrags_getElem?, this] at hf
    exact absurd hf (by simp)
  | some f =>
    rw [Option.map_some', h.2 0 f hf]
    decide

/-- C10 — Documents whose metadata has no `url` key all derive their
fragment ids from the literal source string `"unknown"`: two url-less
documents whose chunks at the same position agree on their first 100
characters receive identical fragment ids, and upserting under an existing
id overwrites rather than duplicates (the count stays the same). -/
theorem urlless_source_id_collision (embed1 embed2 : String → List Int)
    (m1 m2 : Dict) (chunks1 chunks2 : List String) (i : Nat) (c1 c2 : String)
    (h1 : dictGet m1 "url" = none) (h2 : dictGet m2 "url" = none)
    (hc1 : chunks1[i]? = some c1) (hc2 : chunks2[i]? = some c2)
    (hpre : strTake 100 c1 = strTake 100 c2) :
    ((prepareFrags embed1 chunks1 m1)[i]?).map Frag.id
      = ((prepareFrags embed2 chunks2 m2)[i]?).map Frag.id ∧
    ∀ (f g : Frag) (s : Store), f.id = g.id →
      count (upsert1 g (upsert1 f s)) = count (upsert1 f s) := by
  constructor
  · rw [prepareFrags_getElem?, prepareFrags_getElem?, hc1, hc2,
      Option.map_some', Option.map_some', Option.map_some', Option.map_some']
    show some (deriveId (mvalStr ((dictGet m1 "url").getD (.str "unknown"))) i c1)
      = some (deriveId (mvalStr ((dictGet m2 "url").getD (.str "unknown"))) i c2)
    rw [h1, h2]
    exact congrArg some (deriveId_prefix_and_hex "unknown" i c1 c2 c1 hpre).1
  · intro f g s hfg
    exact count_upsert1_of_hasId g (upsert1 f s) (hfg ▸ hasId_upsert1_self f s)

/-- Witness for C10: two distinct url-less sources, same chunk at the same
position, identical derived ids. -/
theorem urlless_source_id_collision_witness :
    dictGet [("source", MVal.str "a.txt")] "url" = none ∧
    ((prepareFrags (fun _ => []) ["shared"] [("source", MVal.str "a.txt")])[0]?).map Frag.id
      = ((prepareFrags (fun _ => []) ["shared"] [("source", MVal.str "b.txt")])[0]?).map Frag.id := by
  refine ⟨by decide, ?_⟩
  exact (urlless_source_id_collision (fun _ => []) (fun _ => [])
    [("source", MVal.str "a.txt")] [("source", MVal.str "b.txt")]
    ["shared"] ["shared"] 0 "shared" "shared"
    (by decide) (by decide) (by decide) (by decide) rfl).1

/-- The entries whose metadata field `url` is exactly the given source. -/
def urlMatches (s : Store) (url : String) : Store :=
  s.filter (fun e => dictGet e.metadata "url" == some (MVal.str url))

/-- The entries whose metadata field `source` is exactly the given source. -/
def sourceMatches (s : Store) (url : String) : Store :=
  s.filter (fun e => dictGet e.metadata "source" == some (MVal.str url))

/-- C6 — `delete_by_url` fetches the entries whose `url` metadata equals the
source; only when that matches nothing does it retry on the `source` field;
it deletes exactly the matched ids and returns their count, and returns 0
(never an error) when neither field matches — in particular on a
nonexistent source or an empty collection. -/
theorem delete_by_url_spec (s : Store) (url : String) :
    (urlMatches s url ≠ [] →
      delete_by_url s url
        = (s.filter (fun e => !(((urlMatches s url).map Frag.id).contains e.id)),
           (urlMatches s url).length)) ∧
    (urlMatches s url = [] → sourceMatches s url ≠ [] →
      delete_by_url s url
        = (s.filter (fun e => !(((sourceMatches s url).map Frag.id).contains e.id)),
           (sourceMatches s url).length)) ∧
    (urlMatches s url = [] → sourceMatches s url = [] →
      delete_by_url s url = (s, 0)) := by
  have hu : getWhere s "url" (.str url) = (urlMatches s url).map Frag.id := rfl
  have hs : getWhere s "source" (.str url) = (sourceMatches s url).map Frag.id := rfl
  refine ⟨?_, ?_, ?_⟩
  · intro hum
    have h1 : ((urlMatches s url).map Frag.id).isEmpty = false := by
      simp [List.isEmpty_iff, hum]
    simp [delete_by_url, hu, h1, collDelete, List.length_map]
  · intro hum hsm
    have h1 : ((urlMatches s url).map Frag.id).isEmpty = true := by
      simp [List.isEmpty_iff, hum]
    have h2 : ((sourceMatches s url).map Frag.id).isEmpty = false := by
      simp [List.isEmpty_iff, hsm]
    simp [delete_by_url, hu, hs, h1, h2, collDelete, List.length_map]
  · intro hum hsm
    have h1 : ((urlMatches s url).map Frag.id).isEmpty = true := by
      simp [List.isEmpty_iff, hum]
    have h2 : ((sourceMatches s url).map Frag.id).isEmpty = true := by
      simp [List.isEmpty_iff, hsm]
    simp [delete_by_url, hu, hs, h1, h2]

/-- Witness for C6: a two-entry store where only the `source`-schema retry
matches, and deletion removes exactly that entry, returning count 1. -/
theorem delete_by_url_spec_witness :
    urlMatches
        [{ id := "1", embedding := [], document := "d1",
           metadata := [("url", MVal.str "u")] },
         { id := "2", embedding := [], document := "d2",
           metadata := [("source", MVal.str "f.txt")] }] "f.txt" = [] ∧
    delete_by_url
        [{ id := "1", embedding := [], document := "d1",
           metadata := [("url", MVal.str "u")] },
         { id := "2", embedding := [], document := "d2",
           metadata := [("source", MVal.str "f.txt")] }] "f.txt"
      = ([{ id := "1", embedding := [], document := "d1",
            metadata := [("url", MVal.str "u")] }], 1) := by
  refine ⟨by decide, ?_⟩
  have h := (delete_by_url_spec
    [{ id := "1", embedding := [], document := "d1",
       metadata := [("url", MVal.str "u")] },
     { id := "2", embedding := [], document := "d2",
       metadata := [("source", MVal.str "f.txt")] }] "f.txt").2.1
    (by decide) (by decide)
  rw [h]
  decide

/-- Formatting the store's query reply yields one record per ranked hit, in
ranking order, pairing each document with its own metadata and distance. -/
theorem formatResults_storeQuery (dist : List Int → List Int → Int)
    (qv : List Int) (k : Nat) (s : Store) :
    formatResults (storeQuery dist qv k s)
      = (((s.map (fun e => (e, dist qv e.embedding))).mergeSort
            (fun a b => decide (a.2 ≤ b.2))).take k).map
          (fun p => { content := p.1.document, metadata := p.1.metadata,
                      distance := some p.2 }) := by
  set top := ((s.map (fun e => (e, dist qv e.embedding))).mergeSort
    (fun a b => decide (a.2 ≤ b.2))).take k with htop
  by_cases htop0 : top = []
  · simp [storeQuery, formatResults, ← htop, htop0]
  · have hde : (top.map (fun p => p.1.document)).isEmpty = false := by
      simp [List.isEmpty_iff, htop0]
    show formatResults
      { documents := some (top.map (fun p => p.1.document))
        metadatas := some (top.map (fun p => p.1.metadata))
        distances := some (top.map (fun p => p.2)) } = _
    simp only [formatResults, hde, Bool.false_eq_true, if_false]
    apply List.ext_getElem?
    intro n
    rw [List.getElem?_map, List.getElem?_enum, List.getElem?_map, List.getElem?_map]
    cases htopn : top[n]? with
    | none => rfl
    | some p =>
      simp only [Option.map_some']
      congr 1
      have hmeta : (top.map (fun p => p.1.metadata)).getD n [] = p.1.metadata := by
        rw [List.getD_eq_getElem?_getD, List.getElem?_map, htopn]
        rfl
      have hdist : (top.map (fun p => p.2))[n]? = some p.2 := by
        rw [List.getElem?_map, htopn]
        rfl
      simp only [hmeta, hdist]

/-- C7 — `search` on an empty collection returns the empty sequence rather
than failing, and a reply whose metadata field is missing (Python falsy) is
mapped to records with an empty metadata record, never a failure. -/
theorem search_empty_and_missing_metadata :
    (∀ (embed : String → List Int) (dist : List Int → List Int → Int)
        (q : String) (k : Nat), search embed dist q k [] = []) ∧
    ∀ r : QueryReply, r.metadatas = none →
      ∀ hit ∈ formatResults r, hit.metadata = [] := by
  constructor
  · intro embed dist q k
    rw [search, formatResults_storeQuery]
    simp
  · intro r hr hit hhit
    cases hd : r.documents with
    | none => simp [formatResults, hd] at hhit
    | some docs =>
      simp only [formatResults, hd] at hhit
      split at hhit
      · exact absurd hhit (List.not_mem_nil hit)
      · rw [List.mem_map] at hhit
        obtain ⟨p, hp, rfl⟩ := hhit
        simp [hr]

/-- Witness for C7: a concrete hit of a metadata-less reply carries the
empty metadata record, and search over the empty store is empty. -/
theorem search_empty_and_missing_metadata_witness :
    search (fun _ => []) (fun _ _ => 0) "query" 5 [] = [] ∧
    ({ content := "doc", metadata := [], distance := none } : SearchResult)
      ∈ formatResults { documents := some ["doc"], metadatas := none,
                        distances := none } ∧
    ({ content := "doc", metadata := [], distance := none } : SearchResult).metadata
      = [] := by
  refine ⟨search_empty_and_missing_metadata.1 _ _ _ _, by decide, ?_⟩
  exact search_empty_and_missing_metadata.2
    { documents := some ["doc"], metadatas := none, distances := none } rfl
    { content := "doc", metadata := [], distance := none } (by decide)

/-- C8 — For every query and every `n_results`, `search` returns at most
`n_results` records, and their distances are non-decreasing across the
returned sequence (nearest first, preserving the index store's ranking
order). -/
theorem search_topk_and_sorted (embed : String → List Int)
    (dist : List Int → List Int → Int) (q : String) (topK : Nat) (s : Store) :
    (search embed dist q topK s).length ≤ topK ∧
    List.Pairwise (fun a b : SearchResult =>
        ∀ da ∈ a.distance, ∀ db ∈ b.distance, da ≤ db)
      (search embed dist q topK s) := by
  rw [search, formatResults_storeQuery]
  constructor
  · rw [List.length_map]
    exact List.length_take_le _ _
  · apply List.pairwise_map.mpr
    have hsorted : List.Pairwise
        (fun a b : Frag × Int => (decide (a.2 ≤ b.2)) = true)
        ((s.map (fun e => (e, dist (embed q) e.embedding))).mergeSort
          (fun a b => decide (a.2 ≤ b.2))) := by
      apply List.sorted_mergeSort
      · intro a b c hab hbc
        simp only [decide_eq_true_eq] at hab hbc ⊢
        exact le_trans hab hbc
      · intro a b
        simp only [Bool.or_eq_true, decide_eq_true_eq]
        exact Int.le_total a.2 b.2
    have htake := hsorted.sublist (List.take_sublist topK _)
    refine htake.imp ?_
    intro a b hab
    simp only [decide_eq_true_eq] at hab
    intro da hda db hdb
    simp only [Option.mem_def, Option.some.injEq] at hda hdb
    subst hda
    subst hdb
    exact hab

/-- Witness for C8 at a concrete two-entry store and `n_results = 1`. -/
theorem search_topk_and_sorted_witness :
    (search (fun _ => [1]) (fun _ v => v.headD 0) "q" 1
        [{ id := "1", embedding := [5], document := "far", metadata := [] },
         { id := "2", embedding := [2], document := "near", metadata := [] }]).length ≤ 1 ∧
    List.Pairwise (fun a b : SearchResult =>
        ∀ da ∈ a.distance, ∀ db ∈ b.distance, da ≤ db)
      (search (fun _ => [1]) (fun _ v => v.headD 0) "q" 1
        [{ id := "1", embedding := [5], document := "far", metadata := [] },
         { id := "2", embedding := [2], document := "near", metadata := [] }]) :=
  search_topk_and_sorted (fun _ => [1]) (fun _ v => v.headD 0) "q" 1
    [{ id := "1", embedding := [5], document := "far", metadata := [] },
     { id := "2", embedding := [2], document := "near", metadata := [] }]

/-- C2 — When the scraper fails (`requests` error, i.e. no response, or an
invalid URL scheme), `scrape` returns no content, and the `/process` route
performs zero ingestion: the store is untouched and the request errors out
(subscripting `None` raises) instead of indexing any placeholder. -/
theorem scrape_failure_zero_ingestion
    (extract titleOf descOf domainOf : String → String) (url : String)
    (response : Option String) (embed : String → List Int) (store : Store)
    (h : response = none ∨ (urlScheme url ≠ "http" ∧ urlScheme url ≠ "https")) :
    scrape extract titleOf descOf domainOf url response = none ∧
    (process embed (scrape extract titleOf descOf domainOf url response)
      url store).1 = store ∧
    ∃ msg, (process embed (scrape extract titleOf descOf domainOf url response)
      url store).2 = Except.error msg := by
  have hfetch : fetch_url url response = none := by
    rcases h with h | ⟨h1, h2⟩
    · unfold fetch_url
      split <;> simp [h]
    · have hc : (urlScheme url == "http" || urlScheme url == "https") = false := by
        simp [h1, h2]
      simp [fetch_url, hc]
  have hscrape : scrape extract titleOf descOf domainOf url response = none := by
    unfold scrape
    rw [hfetch]
  refine ⟨hscrape, ?_, ?_⟩
  · rw [hscrape]
    rfl
  · rw [hscrape]
    exact ⟨_, rfl⟩

/-- Witness for C2 at a concrete invalid-scheme URL with a live response:
nothing is scraped and the store stays empty. -/
theorem scrape_failure_zero_ingestion_witness :
    (urlScheme "ftp://example.com" ≠ "http" ∧ urlScheme "ftp://example.com" ≠ "https") ∧
    scrape id id id id "ftp://example.com" (some "<html>") = none ∧
    (process (fun _ => []) (scrape id id id id "ftp://example.com" (some "<html>"))
      "ftp://example.com" []).1 = [] := by
  have h := scrape_failure_zero_ingestion id id id id "ftp://example.com"
    (some "<html>") (fun _ => []) [] (Or.inr ⟨by decide, by decide⟩)
  exact ⟨⟨by decide, by decide⟩, h.1, h.2.1⟩

end RAG
